import Mathlib

/-!
Shallow embedding of `src/dlup/data/transforms.py` (dlup):
the annotation-to-mask rasterizer `convert_annotations` and the three
sample transforms `ConvertAnnotationsToMask`, `MajorityClassToLabel`,
`ContainsPolygonToLabel`.

Conventions of the embedding:
* numpy 2-D `int32` arrays (masks) are total functions `ℕ → ℕ → ℤ`;
  only cells `(r, c)` with `r < height`, `c < width` are meaningful, and
  every mask-writing primitive is clipped to those bounds, so cells
  outside the raster are never written.
* Python `dict`s are association lists in insertion order, with unique
  keys maintained by the update operations (as Python dicts do).
* Real-valued coordinates and areas are `ℚ` (shapely hands the code
  exact machine reals; every comparison the claims depend on is exact).
* Python exceptions become `Except TransformError`.
* `roi_name` is `Option String`; Python's truthiness test `if roi_name:`
  is `roiTruthy` (false on `none` and on the empty string).
-/

/-- Association-list lookup, first match wins (Python dict lookup; keys
are unique in all lists this development builds). -/
def alookup {β : Type} : List (String × β) → String → Option β
  | [], _ => none
  | (k', v) :: rest, k => if k' == k then some v else alookup rest k

/-- Python `d[k] = v` / `d.update({k: v})` on a dict: replace the value
of an existing key in place, else append the new key at the end. -/
def dictUpdate {β : Type} : List (String × β) → String → β → List (String × β)
  | [], k, v => [(k, v)]
  | (k', v') :: rest, k, v =>
    if k' == k then (k', v) :: rest else (k', v') :: dictUpdate rest k v

/-- Python truthiness of an optional string: `None` and `""` are falsy. -/
def roiTruthy : Option String → Bool
  | none => false
  | some nm => !(nm == "")

/-- The test `roi_name and curr_annotation.label == roi_name` of
`convert_annotations` (transforms.py line 73). -/
def isRoiLabel (rn : Option String) (label : String) : Bool :=
  match rn with
  | none => false
  | some nm => !(nm == "") && (label == nm)

/-- Modelled from the spec: numpy `.round()` (round half to even) applied
to one real coordinate before rasterization.  Since `q.den` is positive,
`Int.fdiv q.num q.den` is the floor of `q`, and the comparisons of the
fractional part against one half are exact integer cross-multiplications:
`q - f < 1/2` iff `2 q.num < (2 f + 1) q.den`. -/
def roundHalfEven (q : ℚ) : ℤ :=
  let f := Int.fdiv q.num (q.den : ℤ)
  if 2 * q.num < (2 * f + 1) * (q.den : ℤ) then f
  else if (2 * f + 1) * (q.den : ℤ) < 2 * q.num then f + 1
  else if f % 2 = 0 then f else f + 1

/-- A ring of real coordinates rounded to integer pixel coordinates,
`np.asarray(ring.coords).round().astype(np.int32)`. -/
def roundRing (ring : List (ℚ × ℚ)) : List (ℤ × ℤ) :=
  ring.map (fun p => (roundHalfEven p.1, roundHalfEven p.2))

/-- Edges of a closed polygon ring: consecutive vertex pairs, plus the
closing edge from the last vertex back to the first. -/
def ringEdges : List (ℤ × ℤ) → List ((ℤ × ℤ) × (ℤ × ℤ))
  | [] => []
  | p :: rest => (p :: rest).zip (rest ++ [p])

/-- Modelled from the spec: one step of the standard even-odd ray-crossing
test — whether the edge `a → b` crosses the horizontal ray going right
from the integer point `(px, py)`.  Exact integer arithmetic. -/
def edgeCrossesRay (px py : ℤ) (e : (ℤ × ℤ) × (ℤ × ℤ)) : Bool :=
  let x1 := e.1.1; let y1 := e.1.2
  let x2 := e.2.1; let y2 := e.2.2
  (decide (y1 ≤ py) != decide (y2 ≤ py)) &&
    (if y1 < y2 then decide ((px - x1) * (y2 - y1) < (x2 - x1) * (py - y1))
     else decide ((x2 - x1) * (py - y1) < (px - x1) * (y2 - y1)))

/-- Modelled from the spec: the even-odd (parity) inside test of the
scanline polygon fill used by OpenCV `cv2.fillPoly` — a point is inside
when a horizontal ray crosses the edges of all given rings an odd number
of times (for disjoint rings this is "inside one of the rings"). -/
def insideRings (rings : List (List (ℤ × ℤ))) (px py : ℤ) : Bool :=
  ((rings.map ringEdges).flatten.countP (edgeCrossesRay px py)) % 2 == 1

/-- A numpy 2-D integer mask, as a total function row → column → value. -/
def Mask : Type := ℕ → ℕ → ℤ

/-- Modelled from the spec: `cv2.fillPoly(mask, rings, value)` — fill the
even-odd interior of `rings` with `value`, in place, clipped to the mask
bounds `size = (height, width)`. -/
def fillPoly (size : ℕ × ℕ) (mask : Mask) (rings : List (List (ℤ × ℤ)))
    (value : ℤ) : Mask :=
  fun r c =>
    if r < size.1 ∧ c < size.2 ∧ insideRings rings (c : ℤ) (r : ℤ) = true then value
    else mask r c

/-- A point annotation: a label and its coordinates (`shapely` exposes a
point's `.coords` as a one-element coordinate sequence). -/
structure PointAnn where
  label : String
  coords : List (ℚ × ℚ)
deriving DecidableEq

/-- A polygon annotation: label, exterior ring, interior (hole) rings,
and the area attribute computed by the annotation layer. -/
structure PolyAnn where
  label : String
  exterior : List (ℚ × ℚ)
  interiors : List (List (ℚ × ℚ))
  area : ℚ
deriving DecidableEq

/-- `dlup.annotations.Point | dlup.annotations.Polygon`. -/
inductive Ann where
  | point (p : PointAnn)
  | polygon (p : PolyAnn)
deriving DecidableEq

/-- `annotation.label` (both kinds carry a label). -/
def annLabel : Ann → String
  | .point p => p.label
  | .polygon p => p.label

/-- `annotation.area`: a shapely point has area `0.0`. -/
def annArea : Ann → ℚ
  | .point _ => 0
  | .polygon p => p.area

/-- `points[label] += tuple(coords)` on a `defaultdict(list)`: extend the
list of an existing key, else insert the new key at the end. -/
def addPoints : List (String × List (ℚ × ℚ)) → String → List (ℚ × ℚ) →
    List (String × List (ℚ × ℚ))
  | [], l, cs => [(l, cs)]
  | (k, v) :: rest, l, cs =>
    if k == l then (k, v ++ cs) :: rest else (k, v) :: addPoints rest l cs

/-- The mutable state of one `convert_annotations` call: the class mask,
the point collection, and the ROI mask. -/
structure RasterState where
  mask : Mask
  points : List (String × List (ℚ × ℚ))
  roiMask : Mask

/-- One iteration of the `for curr_annotation in annotations:` loop of
`convert_annotations` (transforms.py lines 67–99).

Note: the source guards the hole bookkeeping with `if interiors is not []`,
which is identically `True` in Python (identity comparison against a fresh
list), so the snapshot, the hole mask and the restore step run for every
class polygon; when `interiors == []` they are no-ops, which this
definition reproduces. -/
def processAnn (size : ℕ × ℕ) (im : List (String × ℤ)) (rn : Option String)
    (st : RasterState) (ann : Ann) : RasterState :=
  match ann with
  | .point p => { st with points := addPoints st.points p.label p.coords }
  | .polygon p =>
    if isRoiLabel rn p.label then
      { st with roiMask := fillPoly size st.roiMask [roundRing p.exterior] 1 }
    else
      match alookup im p.label with
      | none => st
      | some v =>
        let originalValues := st.mask
        let holesMask := fillPoly size (fun _ _ => 0) (p.interiors.map roundRing) 1
        let filled := fillPoly size st.mask [roundRing p.exterior] v
        { st with
          mask := fun r c => if holesMask r c = 1 then originalValues r c else filled r c }

/-- The raster state after the whole loop of `convert_annotations`:
mask initialized to `default_value`, empty point dict, zero ROI mask. -/
def rasterState (anns : List Ann) (size : ℕ × ℕ) (im : List (String × ℤ))
    (rn : Option String) (d : ℤ) : RasterState :=
  anns.foldl (processAnn size im rn) ⟨fun _ _ => d, [], fun _ _ => 0⟩

/-- The triple returned by `convert_annotations`. -/
structure ConvertResult where
  points : List (String × List (ℚ × ℚ))
  mask : Mask
  roiMask : Option Mask

/-- `convert_annotations(annotations, region_size, index_map, roi_name,
default_value)` (transforms.py lines 20–101).  `region_size` is
`(height, width)`; the ROI mask is returned only when `roi_name` is
truthy (`roi_mask if roi_name else None`). -/
def convert_annotations (anns : List Ann) (region_size : ℕ × ℕ)
    (im : List (String × ℤ)) (rn : Option String) (d : ℤ) : ConvertResult :=
  let fin := rasterState anns region_size im rn d
  ⟨fin.points, fin.mask, if roiTruthy rn then some fin.roiMask else none⟩

/-- A PIL image: `size` is `(width, height)`, pixels are a `uint8` array
of shape height × width × channels (`np.asarray(image)`). -/
structure Image where
  width : ℕ
  height : ℕ
  pix : ℕ → ℕ → ℕ → ℤ

/-- A value stored in a sample's `labels` dict: `majority_class` stores an
integer class index, `has <label>` stores a boolean. -/
inductive LabelValue where
  | int (z : ℤ)
  | bool (b : Bool)
deriving DecidableEq

/-- The `annotation_data` dict written by `ConvertAnnotationsToMask`; the
`roi` key is present only when `convert_annotations` returned a ROI mask. -/
structure AnnData where
  points : List (String × List (ℚ × ℚ))
  mask : Mask
  roi : Option Mask

/-- A sample dict, with the keys the transforms read or write; `none`
models an absent key. -/
structure Sample where
  image : Image
  annotations : Option (List Ann)
  labels : Option (List (String × LabelValue))
  annotation_data : Option AnnData

/-- The Python exceptions the transforms can raise. -/
inductive TransformError where
  /-- `ValueError` from `max()` over an empty area dict — the spec's
  `NoLabelFound`-class failure of the majority-label selector. -/
  | noLabelFound
  /-- `ZeroDivisionError` from `label_area / roi.area` with a zero-area
  reference region — the spec's `InvalidRegionError`. -/
  | invalidRegion
  /-- `TypeError` from subscripting the `None` returned in place of a ROI
  mask (unreachable for real inputs). -/
  | noneRoi
deriving DecidableEq

/-- `ConvertAnnotationsToMask.__call__` (transforms.py lines 122–141):
rasterize the sample's annotations over the image extent
(`sample["image"].size[::-1]` is `(height, width)`) and store the result
under `annotation_data`. -/
def convertAnnotationsToMask (rn : Option String) (im : List (String × ℤ))
    (d : ℤ) (sample : Sample) : Sample :=
  match sample.annotations with
  | none => sample
  | some anns =>
    let res := convert_annotations anns (sample.image.height, sample.image.width) im rn d
    { sample with annotation_data := some ⟨res.points, res.mask, res.roiMask⟩ }

/-- `keys = list(self._index_map.keys()); if self._roi_name: keys.append(self._roi_name)`. -/
def majorityKeys (im : List (String × ℤ)) (rn : Option String) : List String :=
  im.map Prod.fst ++ (if roiTruthy rn then [rn.getD ""] else [])

/-- `areas[annotation.label] += annotation.area` on a `defaultdict(int)`:
add to an existing key, else append the key with value `0 + a`. -/
def addArea : List (String × ℚ) → String → ℚ → List (String × ℚ)
  | [], l, a => [(l, a)]
  | (k, v) :: rest, l, a =>
    if k == l then (k, v + a) :: rest else (k, v) :: addArea rest l a

/-- The per-label area accumulation loop of `MajorityClassToLabel.__call__`
(transforms.py lines 213–215). -/
def accumulateAreas (keys : List String) (anns : List Ann) : List (String × ℚ) :=
  anns.foldl
    (fun acc ann => if keys.contains (annLabel ann) then addArea acc (annLabel ann) (annArea ann) else acc)
    []

/-- `del areas[nm]` on a dict with unique keys. -/
def removeKey (areas : List (String × ℚ)) (nm : String) : List (String × ℚ) :=
  areas.filter (fun p => !(p.1 == nm))

/-- `max(areas, key=lambda x: areas[x])` together with its value: Python's
`max` keeps the first maximal element of the (insertion-ordered) dict and
replaces it only on a strictly greater value. -/
def maxEntry : List (String × ℚ) → Option (String × ℚ)
  | [] => none
  | x :: rest => some (rest.foldl (fun cur y => if cur.2 < y.2 then y else cur) x)

/-- `areas0`: the per-label areas accumulated over
`list(index_map) (+ [roi_name] if truthy)` before the ROI entry is
removed. -/
def majorityAreas0 (im : List (String × ℤ)) (rn : Option String)
    (anns : List Ann) : List (String × ℚ) :=
  accumulateAreas (majorityKeys im rn) anns

/-- The area dict ranked by the selector: `areas0` with the ROI entry
deleted when a truthy ROI name was supplied. -/
def majorityAreas (im : List (String × ℤ)) (rn : Option String)
    (anns : List Ann) : List (String × ℚ) :=
  if roiTruthy rn then removeKey (majorityAreas0 im rn anns) (rn.getD "")
  else majorityAreas0 im rn anns

/-- `tile_area = np.prod(sample["image"].size)`. -/
def tileAreaOf (img : Image) : ℚ :=
  ((img.width : ℚ)) * ((img.height : ℚ))

/-- `roi_non_cover = (tile_area - areas[roi_name]) / tile_area` when a
truthy ROI name was supplied, else the initial `0.0` (the defaultdict
access inserts `0` for a missing ROI key, so the absent case reads `0`). -/
def roiNonCoverOf (im : List (String × ℤ)) (rn : Option String)
    (anns : List Ann) (tileArea : ℚ) : ℚ :=
  if roiTruthy rn then
    (tileArea - ((alookup (majorityAreas0 im rn anns) (rn.getD "")).getD 0)) / tileArea
  else 0

/-- `(np.asarray(image) * roi[..., np.newaxis]).astype(np.uint8)` turned
back into a PIL image of the same mode and extent. -/
def maskImage (img : Image) (roi : Mask) : Image :=
  { img with pix := fun r c ch => (img.pix r c ch * roi r c) % 256 }

/-- `MajorityClassToLabel.__call__` (transforms.py lines 201–237).
`max_key` is always a key of `index_map` (area keys come from
`majorityKeys` and the ROI key is deleted first), so the `index_map`
lookup of the source cannot raise and is embedded with a `getD` default. -/
def majorityClassToLabel (rn : Option String) (im : List (String × ℤ))
    (sample : Sample) : Except TransformError Sample :=
  match sample.annotations with
  | none => .ok sample
  | some anns =>
    let labels0 := sample.labels.getD []
    let tileArea := tileAreaOf sample.image
    let roiNonCover := roiNonCoverOf im rn anns tileArea
    let areas := majorityAreas im rn anns
    match maxEntry areas with
    | none => .error .noLabelFound
    | some maxE =>
      let maxProportion := ((alookup areas maxE.1).getD 0) / tileArea
      let newLabels :=
        dictUpdate labels0 "majority_class" (.int ((alookup im maxE.1).getD 0))
      if roiNonCover > maxProportion then
        match (convert_annotations anns (sample.image.height, sample.image.width) [] rn 0).roiMask with
        | none => .error .noneRoi
        | some roi =>
          .ok { sample with image := maskImage sample.image roi, labels := some newLabels }
      else
        .ok { sample with labels := some newLabels }

/-- Twice the signed shoelace area of a closed coordinate ring. -/
def shoelaceTwice : List (ℚ × ℚ) → ℚ
  | [] => 0
  | p :: rest =>
    (((p :: rest).zip (rest ++ [p])).map
      (fun e => e.1.1 * e.2.2 - e.2.1 * e.1.2)).sum

/-- Modelled from the spec: shapely's `.area` of one polygon — the
absolute shoelace area of the exterior ring minus those of the interior
rings. -/
def polygonArea (p : PolyAnn) : ℚ :=
  |shoelaceTwice p.exterior| / 2 - ((p.interiors.map (fun r => |shoelaceTwice r| / 2)).sum)

/-- The polygon annotations of the sequence carrying a given label (the
`[_ for _ in sample["annotations"] if _.label == label]` comprehensions;
a point with the label would make the shapely `MultiPolygon` constructor
raise, outside this model). -/
def polygonsLabeled (anns : List Ann) (label : String) : List PolyAnn :=
  anns.filterMap (fun ann =>
    match ann with
    | .polygon p => if p.label == label then some p else none
    | .point _ => none)

/-- The reference region of `ContainsPolygonToLabel`: the `MultiPolygon`
of the ROI-labeled shapes when a truthy ROI name was supplied, else
`shapely.geometry.box(0, 0, *size[::-1])`, the full tile rectangle. -/
inductive RefRegion where
  | multi (ps : List PolyAnn)
  | box (maxx maxy : ℚ)
deriving DecidableEq

/-- `roi = MultiPolygon(roi shapes)` or `box(0, 0, height, width)`. -/
def refRegionOf (rn : Option String) (anns : List Ann) (h w : ℕ) : RefRegion :=
  if roiTruthy rn then .multi (polygonsLabeled anns (rn.getD ""))
  else .box (h : ℚ) (w : ℚ)

/-- Modelled from the spec: shapely's `.area` of the reference region — a
`MultiPolygon`'s area is the sum of its members' areas, a box's area is
its width times its height. -/
def refRegionArea : RefRegion → ℚ
  | .multi ps => (ps.map polygonArea).sum
  | .box maxx maxy => maxx * maxy

/-- `ContainsPolygonToLabel.__call__` (transforms.py lines 263–284).
The shapely geometric kernel is external to the repository; following the
spec, the area of `intersection(make_valid(MultiPolygon(target shapes)),
reference region)` is abstracted as the parameter `interArea`.  The
division `label_area / roi.area` raises `ZeroDivisionError` when the
reference region has zero area. -/
def containsPolygonToLabel (interArea : List PolyAnn → RefRegion → ℚ)
    (rn : Option String) (label : String) (threshold : ℚ)
    (sample : Sample) : Except TransformError Sample :=
  match sample.annotations with
  | none => .ok sample
  | some anns =>
    let labels0 := sample.labels.getD []
    let requested := polygonsLabeled anns label
    let roi := refRegionOf rn anns sample.image.height sample.image.width
    let labelArea := interArea requested roi
    if refRegionArea roi = 0 then .error .invalidRegion
    else
      let proportion := labelArea / refRegionArea roi
      .ok { sample with
        labels := some (dictUpdate labels0 ("has " ++ label)
          (.bool (decide (proportion > threshold)))) }

/-- An axis-aligned rectangular test ring (counter-clockwise). -/
def squareRing (x0 y0 x1 y1 : ℚ) : List (ℚ × ℚ) :=
  [(x0, y0), (x1, y0), (x1, y1), (x0, y1)]

/-- A large class polygon used by the concrete instances below. -/
def bigSquare : PolyAnn := ⟨"stroma", squareRing 0 0 7 7, [], 49⟩

/-- A smaller polygon with one hole, drawn on top of `bigSquare`. -/
def holedSquare : PolyAnn := ⟨"tumor", squareRing 1 1 6 6, [squareRing 3 3 5 5], 21⟩

/-- A small hole-free polygon nested inside `bigSquare`. -/
def smallSquare : PolyAnn := ⟨"tumor", squareRing 2 2 5 5, [], 9⟩

/-- A ROI-labeled polygon that also has an interior ring. -/
def roiPoly : PolyAnn := ⟨"roi", squareRing 0 0 4 4, [squareRing 1 1 2 2], 15⟩

/-- A two-class index map for the concrete instances. -/
def imStromaTumor : List (String × ℤ) := [("stroma", 1), ("tumor", 2)]

/-- An empty raster state. -/
def stEmpty : RasterState := ⟨fun _ _ => 0, [], fun _ _ => 0⟩

/-- A 4 × 4 image with constant `uint8` pixel value 7. -/
def testImage : Image := ⟨4, 4, fun _ _ _ => 7⟩

/-- A degenerate image of size (0, 0). -/
def emptyImage : Image := ⟨0, 0, fun _ _ _ => 0⟩

/-- A small class polygon for the majority-label instances. -/
def tumorSmall : PolyAnn := ⟨"tumor", squareRing 0 0 2 2, [], 3⟩

/-- A ROI polygon covering area 4 of the 16-area test tile. -/
def roiBig : PolyAnn := ⟨"roi", squareRing 0 0 2 2, [], 4⟩

/-- A sample whose leading label area fraction (3/16) is below the
non-ROI-covered fraction (12/16). -/
def majoritySample : Sample :=
  ⟨testImage, some [Ann.polygon tumorSmall, Ann.polygon roiBig], none, none⟩

/-- A sample none of whose annotation labels is in the index map. -/
def noLabelSample : Sample :=
  ⟨testImage,
   some [Ann.point ⟨"x", [(1, 1)]⟩, Ann.polygon ⟨"other", squareRing 0 0 2 2, [], 4⟩],
   none, none⟩

/-- A sample over a (0, 0) tile with no annotations. -/
def zeroTileSample : Sample := ⟨emptyImage, some [], none, none⟩

/-- A sample with no `annotations` key but a pre-existing `labels` dict. -/
def skipSample : Sample := ⟨testImage, none, some [("k", .int 9)], none⟩

/-- A sample with one ROI shape of area 100 and one target shape, for the
threshold-presence instances. -/
def thresholdSample : Sample :=
  ⟨testImage,
   some [Ann.polygon ⟨"roi", squareRing 0 0 10 10, [], 100⟩,
         Ann.polygon ⟨"tumor", squareRing 0 0 5 10, [], 50⟩],
   none, none⟩

theorem convert_annotations_mask (anns : List Ann) (size : ℕ × ℕ)
    (im : List (String × ℤ)) (rn : Option String) (d : ℤ) :
    (convert_annotations anns size im rn d).mask = (rasterState anns size im rn d).mask := rfl

theorem convert_annotations_points (anns : List Ann) (size : ℕ × ℕ)
    (im : List (String × ℤ)) (rn : Option String) (d : ℤ) :
    (convert_annotations anns size im rn d).points = (rasterState anns size im rn d).points := rfl

theorem convert_annotations_roiMask (anns : List Ann) (size : ℕ × ℕ)
    (im : List (String × ℤ)) (rn : Option String) (d : ℤ) :
    (convert_annotations anns size im rn d).roiMask =
      (if roiTruthy rn then some (rasterState anns size im rn d).roiMask else none) := rfl

theorem rasterState_append (anns : List Ann) (a : Ann) (size : ℕ × ℕ)
    (im : List (String × ℤ)) (rn : Option String) (d : ℤ) :
    rasterState (anns ++ [a]) size im rn d =
      processAnn size im rn (rasterState anns size im rn d) a := by
  simp [rasterState, List.foldl_append]

theorem insideRings_nil (px py : ℤ) : insideRings [] px py = false := rfl

theorem fillPoly_pos (size : ℕ × ℕ) (mask : Mask) (rings : List (List (ℤ × ℤ)))
    (value : ℤ) (r c : ℕ)
    (h : r < size.1 ∧ c < size.2 ∧ insideRings rings (c : ℤ) (r : ℤ) = true) :
    fillPoly size mask rings value r c = value := if_pos h

theorem fillPoly_neg (size : ℕ × ℕ) (mask : Mask) (rings : List (List (ℤ × ℤ)))
    (value : ℤ) (r c : ℕ)
    (h : ¬(r < size.1 ∧ c < size.2 ∧ insideRings rings (c : ℤ) (r : ℤ) = true)) :
    fillPoly size mask rings value r c = mask r c := if_neg h

/-- C9: `convert_annotations` is deterministic — two calls on identical
annotation sequences, region sizes, index maps, ROI names and default
values return identical point collections, class masks and ROI masks. -/
theorem convert_annotations_deterministic
    (a₁ a₂ : List Ann) (s₁ s₂ : ℕ × ℕ) (im₁ im₂ : List (String × ℤ))
    (rn₁ rn₂ : Option String) (d₁ d₂ : ℤ)
    (ha : a₁ = a₂) (hs : s₁ = s₂) (him : im₁ = im₂) (hrn : rn₁ = rn₂) (hd : d₁ = d₂) :
    (convert_annotations a₁ s₁ im₁ rn₁ d₁).points = (convert_annotations a₂ s₂ im₂ rn₂ d₂).points ∧
    (convert_annotations a₁ s₁ im₁ rn₁ d₁).mask = (convert_annotations a₂ s₂ im₂ rn₂ d₂).mask ∧
    (convert_annotations a₁ s₁ im₁ rn₁ d₁).roiMask = (convert_annotations a₂ s₂ im₂ rn₂ d₂).roiMask := by
  subst ha hs him hrn hd
  exact ⟨rfl, rfl, rfl⟩

theorem convert_annotations_deterministic_witness :
    (convert_annotations [Ann.polygon bigSquare] (8, 8) imStromaTumor none 0).points =
      (convert_annotations [Ann.polygon bigSquare] (8, 8) imStromaTumor none 0).points ∧
    (convert_annotations [Ann.polygon bigSquare] (8, 8) imStromaTumor none 0).mask =
      (convert_annotations [Ann.polygon bigSquare] (8, 8) imStromaTumor none 0).mask ∧
    (convert_annotations [Ann.polygon bigSquare] (8, 8) imStromaTumor none 0).roiMask =
      (convert_annotations [Ann.polygon bigSquare] (8, 8) imStromaTumor none 0).roiMask :=
  convert_annotations_deterministic _ _ _ _ _ _ _ _ _ _ rfl rfl rfl rfl rfl

/-- C8: on an empty annotation sequence, for every region size, index
map, ROI name and default value, `convert_annotations` returns an empty
point collection, a mask every cell of which is the default value, and a
ROI mask that is uniformly zero when a (truthy) ROI name is given and
`None` when none is given. -/
theorem convert_empty_annotations (size : ℕ × ℕ) (im : List (String × ℤ))
    (rn : Option String) (d : ℤ) :
    (convert_annotations [] size im rn d).points = [] ∧
    (∀ r c, (convert_annotations [] size im rn d).mask r c = d) ∧
    (roiTruthy rn = true → (convert_annotations [] size im rn d).roiMask = some (fun _ _ => 0)) ∧
    (roiTruthy rn = false → (convert_annotations [] size im rn d).roiMask = none) := by
  refine ⟨rfl, fun r c => rfl, fun h => ?_, fun h => ?_⟩ <;>
    simp [convert_annotations_roiMask, rasterState, h]

theorem convert_empty_annotations_witness :
    (convert_annotations [] (3, 2) imStromaTumor (some "roi") 7).points = [] ∧
    (convert_annotations [] (3, 2) imStromaTumor (some "roi") 7).mask 1 1 = 7 ∧
    (convert_annotations [] (3, 2) imStromaTumor (some "roi") 7).roiMask = some (fun _ _ => 0) ∧
    (convert_annotations [] (3, 2) imStromaTumor none 7).roiMask = none :=
  ⟨(convert_empty_annotations (3, 2) imStromaTumor (some "roi") 7).1,
   (convert_empty_annotations (3, 2) imStromaTumor (some "roi") 7).2.1 1 1,
   (convert_empty_annotations (3, 2) imStromaTumor (some "roi") 7).2.2.1 (by decide),
   (convert_empty_annotations (3, 2) imStromaTumor none 7).2.2.2 rfl⟩

/-- C10: a sample without an `annotations` key passes through each of
`ConvertAnnotationsToMask`, `MajorityClassToLabel` and
`ContainsPolygonToLabel` unchanged — no keys added, image untouched. -/
theorem transforms_skip_missing_annotations (sample : Sample)
    (h : sample.annotations = none) (rn : Option String)
    (im : List (String × ℤ)) (d : ℤ) (label : String) (threshold : ℚ)
    (interArea : List PolyAnn → RefRegion → ℚ) :
    convertAnnotationsToMask rn im d sample = sample ∧
    majorityClassToLabel rn im sample = .ok sample ∧
    containsPolygonToLabel interArea rn label threshold sample = .ok sample := by
  refine ⟨?_, ?_, ?_⟩ <;>
    simp [convertAnnotationsToMask, majorityClassToLabel, containsPolygonToLabel, h]

theorem transforms_skip_missing_annotations_witness :
    convertAnnotationsToMask (some "roi") imStromaTumor 0 skipSample = skipSample ∧
    majorityClassToLabel (some "roi") imStromaTumor skipSample = .ok skipSample ∧
    containsPolygonToLabel (fun _ _ => 0) (some "roi") "tumor" (1/2) skipSample = .ok skipSample :=
  transforms_skip_missing_annotations skipSample rfl (some "roi") imStromaTumor 0 "tumor" (1/2)
    (fun _ _ => 0)

/-- C3: a polygon whose label equals the supplied (truthy) ROI name only
fills its exterior ring into the ROI mask with value 1 — its interior
rings are ignored and the class mask and point collection are untouched,
whatever the index map says about the label (the ROI check wins). -/
theorem roi_polygon_only_fills_roi_mask (size : ℕ × ℕ) (im : List (String × ℤ))
    (st : RasterState) (p : PolyAnn) (nm : String)
    (hnm : nm ≠ "") (hl : p.label = nm) :
    processAnn size im (some nm) st (Ann.polygon p) =
      { st with roiMask := fillPoly size st.roiMask [roundRing p.exterior] 1 } := by
  have hcond : isRoiLabel (some nm) p.label = true := by
    simp [isRoiLabel, hl, hnm]
  simp [processAnn, hcond]

theorem roi_polygon_only_fills_roi_mask_witness :
    processAnn (8, 8) [("roi", 3)] (some "roi") stEmpty (Ann.polygon roiPoly) =
      { stEmpty with roiMask := fillPoly (8, 8) stEmpty.roiMask [roundRing roiPoly.exterior] 1 } :=
  roi_polygon_only_fills_roi_mask (8, 8) [("roi", 3)] stEmpty roiPoly "roi" (by decide) rfl

/-- C5: whenever the reference region of the threshold-presence detector
(the `MultiPolygon` of ROI-labeled shapes when a truthy ROI name is
given, else the full tile rectangle) has zero area, the detector fails
with the zero-division (`InvalidRegionError`) failure instead of
returning a result; in particular it does so for no ROI name and a tile
of size (0, 0). -/
theorem presence_zero_region_error (interArea : List PolyAnn → RefRegion → ℚ)
    (rn : Option String) (label : String) (threshold : ℚ)
    (sample : Sample) (anns : List Ann)
    (hann : sample.annotations = some anns)
    (href : refRegionArea (refRegionOf rn anns sample.image.height sample.image.width) = 0) :
    containsPolygonToLabel interArea rn label threshold sample = .error .invalidRegion := by
  simp [containsPolygonToLabel, hann, href]

theorem presence_zero_region_error_witness :
    containsPolygonToLabel (fun _ _ => 0) none "tumor" (1/2) zeroTileSample =
      .error .invalidRegion :=
  presence_zero_region_error (fun _ _ => 0) none "tumor" (1/2) zeroTileSample [] rfl
    (by simp [refRegionOf, roiTruthy, refRegionArea, zeroTileSample, emptyImage])

/-- C1: when `convert_annotations` processes a class polygon (label in
the index map, label not the ROI name) that has interior rings, every
mask cell inside its interior rings ends up, right after that polygon is
processed, with the value it held immediately before the polygon's
exterior was filled — holes reveal the underlying layer, not the default
value. -/
theorem holes_reveal_previous_layer (pre : List Ann) (p : PolyAnn)
    (size : ℕ × ℕ) (im : List (String × ℤ)) (rn : Option String) (d v : ℤ)
    (hidx : alookup im p.label = some v)
    (hroi : ∀ nm, rn = some nm → p.label ≠ nm)
    (hholes : p.interiors ≠ [])
    (r c : ℕ)
    (hin : insideRings (p.interiors.map roundRing) (c : ℤ) (r : ℤ) = true) :
    (convert_annotations (pre ++ [Ann.polygon p]) size im rn d).mask r c =
      (convert_annotations pre size im rn d).mask r c := by
  have hcond : isRoiLabel rn p.label = false := by
    cases rn with
    | none => rfl
    | some nm => simp [isRoiLabel, hroi nm rfl]
  rw [convert_annotations_mask, convert_annotations_mask, rasterState_append]
  set st := rasterState pre size im rn d with hst
  simp only [processAnn, hcond, Bool.false_eq_true, if_false, hidx]
  by_cases hr : r < size.1
  · by_cases hc : c < size.2
    · have h1 : fillPoly size (fun _ _ => 0) (p.interiors.map roundRing) 1 r c = 1 :=
        fillPoly_pos _ _ _ _ _ _ ⟨hr, hc, hin⟩
      simp [h1]
    · have h0 : fillPoly size (fun _ _ => 0) (p.interiors.map roundRing) 1 r c = 0 :=
        fillPoly_neg _ _ _ _ _ _ (by tauto)
      have h2 : fillPoly size st.mask [roundRing p.exterior] v r c = st.mask r c :=
        fillPoly_neg _ _ _ _ _ _ (by tauto)
      simp [h0, h2]
  · have h0 : fillPoly size (fun _ _ => 0) (p.interiors.map roundRing) 1 r c = 0 :=
      fillPoly_neg _ _ _ _ _ _ (by tauto)
    have h2 : fillPoly size st.mask [roundRing p.exterior] v r c = st.mask r c :=
      fillPoly_neg _ _ _ _ _ _ (by tauto)
    simp [h0, h2]

theorem holes_reveal_previous_layer_witness :
    (convert_annotations ([Ann.polygon bigSquare] ++ [Ann.polygon holedSquare])
        (8, 8) imStromaTumor none 0).mask 4 4 =
      (convert_annotations [Ann.polygon bigSquare] (8, 8) imStromaTumor none 0).mask 4 4 :=
  holes_reveal_previous_layer [Ann.polygon bigSquare] holedSquare (8, 8) imStromaTumor
    none 0 2 (by decide) (fun nm h => Option.noConfusion h) (by decide) 4 4 (by decide)

/-- C2: a class polygon without interior rings (label in the index map,
label not the ROI name), drawn after — hence on top of — an earlier
polygon whose filled region contains its own, leaves every in-bounds
cell of its region equal to its own class index `index_map[label]`:
the solid exterior fill overwrites the earlier polygon and the hole
restore step does nothing. -/
theorem nested_polygon_overwrite (pre : List Ann) (p q : PolyAnn)
    (size : ℕ × ℕ) (im : List (String × ℤ)) (rn : Option String) (d v : ℤ)
    (hidx : alookup im p.label = some v)
    (hroi : ∀ nm, rn = some nm → p.label ≠ nm)
    (hnoholes : p.interiors = [])
    (hq : Ann.polygon q ∈ pre)
    (hnested : ∀ r : ℕ, r < size.1 → ∀ c : ℕ, c < size.2 →
      insideRings [roundRing p.exterior] (c : ℤ) (r : ℤ) = true →
      insideRings [roundRing q.exterior] (c : ℤ) (r : ℤ) = true)
    (r c : ℕ) (hr : r < size.1) (hc : c < size.2)
    (hin : insideRings [roundRing p.exterior] (c : ℤ) (r : ℤ) = true) :
    (convert_annotations (pre ++ [Ann.polygon p]) size im rn d).mask r c = v := by
  have hcond : isRoiLabel rn p.label = false := by
    cases rn with
    | none => rfl
    | some nm => simp [isRoiLabel, hroi nm rfl]
  rw [convert_annotations_mask, rasterState_append]
  set st := rasterState pre size im rn d with hst
  simp only [processAnn, hcond, Bool.false_eq_true, if_false, hidx, hnoholes]
  have h0 : fillPoly size (fun _ _ => 0) ([] : List (List (ℤ × ℤ))) 1 r c = 0 := by
    simp [fillPoly, insideRings_nil]
  have h2 : fillPoly size st.mask [roundRing p.exterior] v r c = v :=
    fillPoly_pos _ _ _ _ _ _ ⟨hr, hc, hin⟩
  simp [h0, h2]

theorem nested_polygon_overwrite_witness :
    (convert_annotations ([Ann.polygon bigSquare] ++ [Ann.polygon smallSquare])
        (8, 8) imStromaTumor none 0).mask 3 3 = 2 :=
  nested_polygon_overwrite [Ann.polygon bigSquare] smallSquare bigSquare (8, 8)
    imStromaTumor none 0 2 (by decide) (fun nm h => Option.noConfusion h) rfl
    (List.mem_singleton.2 rfl) (by decide) 3 3 (by decide) (by decide) (by decide)

theorem alookup_eq_none_iff {β : Type} (l : List (String × β)) (k : String) :
    alookup l k = none ↔ k ∉ l.map Prod.fst := by
  induction l with
  | nil => simp [alookup]
  | cons x rest ih =>
    obtain ⟨k', v⟩ := x
    by_cases h : k' = k
    · subst h; simp [alookup]
    · have hb : (k' == k) = false := by simpa using h
      have hne : ¬k = k' := fun hk => h hk.symm
      simp [alookup, hb, ih, hne]

theorem addArea_keys_mem (l : List (String × ℚ)) (k0 : String) (a : ℚ) :
    ∀ k, k ∈ (addArea l k0 a).map Prod.fst → k ∈ l.map Prod.fst ∨ k = k0 := by
  induction l with
  | nil =>
    intro k h
    simp [addArea] at h
    exact Or.inr h
  | cons x rest ih =>
    obtain ⟨k', v⟩ := x
    intro k h
    by_cases hk : k' == k0
    · simp only [addArea, hk, if_true, List.map_cons, List.mem_cons] at h
      rcases h with h | h
      · exact Or.inl (by simp [h])
      · exact Or.inl (by simp [h])
    · simp only [addArea, hk, Bool.false_eq_true, if_false, List.map_cons,
        List.mem_cons] at h
      rcases h with h | h
      · exact Or.inl (by simp [h])
      · rcases ih k h with h' | h'
        · exact Or.inl (by simp [h'])
        · exact Or.inr h'

theorem accumulateAreas_fold_keys (keys : List String) (anns : List Ann) :
    ∀ (acc : List (String × ℚ)) (k : String),
      k ∈ ((anns.foldl (fun acc ann =>
          if keys.contains (annLabel ann) then addArea acc (annLabel ann) (annArea ann)
          else acc) acc).map Prod.fst) →
      k ∈ acc.map Prod.fst ∨
        (keys.contains k = true ∧ ∃ ann ∈ anns, annLabel ann = k) := by
  induction anns with
  | nil => exact fun acc k h => Or.inl h
  | cons a rest ih =>
    intro acc k h
    rw [List.foldl_cons] at h
    rcases ih _ k h with h' | ⟨hc, ann, hmem, heq⟩
    · by_cases hc : keys.contains (annLabel a)
      · rw [if_pos hc] at h'
        rcases addArea_keys_mem _ _ _ _ h' with h'' | h''
        · exact Or.inl h''
        · exact Or.inr ⟨h'' ▸ hc, a, List.mem_cons_self a rest, h''.symm⟩
      · rw [if_neg hc] at h'
        exact Or.inl h'
    · exact Or.inr ⟨hc, ann, List.mem_cons_of_mem a hmem, heq⟩

theorem majorityAreas0_keys (im : List (String × ℤ)) (rn : Option String)
    (anns : List Ann) (k : String)
    (hk : k ∈ (majorityAreas0 im rn anns).map Prod.fst)
    (h : ∀ ann ∈ anns, alookup im (annLabel ann) = none) :
    roiTruthy rn = true ∧ k = rn.getD "" := by
  rcases accumulateAreas_fold_keys (majorityKeys im rn) anns [] k hk with
    h' | ⟨hc, ann, hmem, heq⟩
  · simp at h'
  · have hnotim : k ∉ im.map Prod.fst := heq ▸ (alookup_eq_none_iff im _).1 (h ann hmem)
    have hk2 : k ∈ majorityKeys im rn := List.elem_iff.1 hc
    rcases List.mem_append.1 hk2 with h2 | h2
    · exact absurd h2 hnotim
    · by_cases ht : roiTruthy rn
      · rw [if_pos ht] at h2
        exact ⟨ht, List.mem_singleton.1 h2⟩
      · rw [if_neg ht] at h2
        cases h2

/-- C4: when no annotation of the sample carries a label present in the
index map, the majority-label selector fails with the empty-`max` error
(the spec's `NoLabelFound`) instead of silently defaulting to a label. -/
theorem majority_no_label_error (sample : Sample) (anns : List Ann)
    (rn : Option String) (im : List (String × ℤ))
    (hann : sample.annotations = some anns)
    (h : ∀ ann ∈ anns, alookup im (annLabel ann) = none) :
    majorityClassToLabel rn im sample = .error .noLabelFound := by
  have hempty : majorityAreas im rn anns = [] := by
    by_cases ht : roiTruthy rn
    · rw [majorityAreas, if_pos ht]
      rw [removeKey, List.filter_eq_nil_iff]
      intro p hp
      have := (majorityAreas0_keys im rn anns p.1
        (List.mem_map_of_mem Prod.fst hp) h).2
      simp [this]
    · rw [majorityAreas, if_neg ht]
      have hnil : (majorityAreas0 im rn anns).map Prod.fst = [] := by
        rw [List.eq_nil_iff_forall_not_mem]
        intro k hk
        exact ht (majorityAreas0_keys im rn anns k hk h).1
      exact List.map_eq_nil_iff.1 hnil
  simp [majorityClassToLabel, hann, hempty, maxEntry]

theorem majority_no_label_error_witness :
    majorityClassToLabel (some "roi") [("tumor", 5)] noLabelSample =
      .error .noLabelFound :=
  majority_no_label_error noLabelSample
    [Ann.point ⟨"x", [(1, 1)]⟩, Ann.polygon ⟨"other", squareRing 0 0 2 2, [], 4⟩]
    (some "roi") [("tumor", 5)] rfl (by decide)

theorem alookup_dictUpdate {β : Type} (l : List (String × β)) (k : String) (v : β) :
    alookup (dictUpdate l k v) k = some v := by
  induction l with
  | nil => simp [dictUpdate, alookup]
  | cons x rest ih =>
    obtain ⟨k', v'⟩ := x
    by_cases h : k' == k
    · simp [dictUpdate, alookup, h]
    · simp [dictUpdate, alookup, h, ih]

theorem maxFold_spec (l : List (String × ℚ)) :
    ∀ cur : String × ℚ,
      (l.foldl (fun cur y => if cur.2 < y.2 then y else cur) cur) ∈ cur :: l ∧
      cur.2 ≤ (l.foldl (fun cur y => if cur.2 < y.2 then y else cur) cur).2 ∧
      ∀ p ∈ l, p.2 ≤ (l.foldl (fun cur y => if cur.2 < y.2 then y else cur) cur).2 := by
  induction l with
  | nil => exact fun cur => ⟨List.mem_singleton.2 rfl, le_refl _, by simp⟩
  | cons y rest ih =>
    intro cur
    rw [List.foldl_cons]
    obtain ⟨hmem, hle, hall⟩ := ih (if cur.2 < y.2 then y else cur)
    have hcur : cur.2 ≤ (if cur.2 < y.2 then y else cur).2 := by
      by_cases hc : cur.2 < y.2
      · rw [if_pos hc]; exact le_of_lt hc
      · rw [if_neg hc]
    have hy : y.2 ≤ (if cur.2 < y.2 then y else cur).2 := by
      by_cases hc : cur.2 < y.2
      · rw [if_pos hc]
      · rw [if_neg hc]; exact le_of_not_lt hc
    refine ⟨?_, le_trans hcur hle, ?_⟩
    · rcases List.mem_cons.1 hmem with h | h
      · rw [h]
        by_cases hc : cur.2 < y.2
        · rw [if_pos hc]; exact List.mem_cons_of_mem _ (List.mem_cons_self y rest)
        · rw [if_neg hc]; exact List.mem_cons_self cur (y :: rest)
      · exact List.mem_cons_of_mem _ (List.mem_cons_of_mem _ h)
    · intro p hp
      rcases List.mem_cons.1 hp with h | h
      · rw [h]; exact le_trans hy hle
      · exact hall p h

theorem maxEntry_spec (l : List (String × ℚ)) (m : String × ℚ)
    (h : maxEntry l = some m) : m ∈ l ∧ ∀ p ∈ l, p.2 ≤ m.2 := by
  cases l with
  | nil => cases h
  | cons x rest =>
    obtain ⟨hmem, hle, hall⟩ := maxFold_spec rest x
    simp only [maxEntry, Option.some.injEq] at h
    rw [← h]
    refine ⟨hmem, ?_⟩
    intro p hp
    rcases List.mem_cons.1 hp with h' | h'
    · rw [h']; exact hle
    · exact hall p h'

theorem addArea_keys_nodup (l : List (String × ℚ)) (k0 : String) (a : ℚ)
    (h : (l.map Prod.fst).Nodup) : ((addArea l k0 a).map Prod.fst).Nodup := by
  induction l with
  | nil => simp [addArea]
  | cons x rest ih =>
    obtain ⟨k', v⟩ := x
    simp only [List.map_cons, List.nodup_cons] at h
    by_cases hk : k' == k0
    · simp only [addArea, hk, if_true, List.map_cons, List.nodup_cons]
      exact h
    · have ih' := ih h.2
      simp only [addArea, hk, Bool.false_eq_true, if_false, List.map_cons,
        List.nodup_cons]
      refine ⟨?_, ih'⟩
      intro hmem
      rcases addArea_keys_mem rest k0 a k' hmem with h' | h'
      · exact h.1 h'
      · exact (beq_eq_false_iff_ne.1 (Bool.of_not_eq_true hk)) h'

theorem accumulateAreas_fold_nodup (keys : List String) (anns : List Ann) :
    ∀ acc : List (String × ℚ), (acc.map Prod.fst).Nodup →
      (((anns.foldl (fun acc ann =>
        if keys.contains (annLabel ann) then addArea acc (annLabel ann) (annArea ann)
        else acc) acc)).map Prod.fst).Nodup := by
  induction anns with
  | nil => exact fun acc h => h
  | cons a rest ih =>
    intro acc h
    rw [List.foldl_cons]
    apply ih
    by_cases hc : keys.contains (annLabel a)
    · rw [if_pos hc]; exact addArea_keys_nodup _ _ _ h
    · rw [if_neg hc]; exact h

theorem majorityAreas_keys_nodup (im : List (String × ℤ)) (rn : Option String)
    (anns : List Ann) : ((majorityAreas im rn anns).map Prod.fst).Nodup := by
  have h0 : ((majorityAreas0 im rn anns).map Prod.fst).Nodup :=
    accumulateAreas_fold_nodup _ anns [] (by simp)
  rw [majorityAreas]
  by_cases ht : roiTruthy rn
  · rw [if_pos ht]
    exact h0.sublist ((List.filter_sublist _).map Prod.fst)
  · rw [if_neg ht]; exact h0

theorem alookup_of_mem_nodup {β : Type} (l : List (String × β)) (k : String) (v : β)
    (hnd : (l.map Prod.fst).Nodup) (hm : (k, v) ∈ l) : alookup l k = some v := by
  induction l with
  | nil => cases hm
  | cons x rest ih =>
    obtain ⟨k', v'⟩ := x
    simp only [List.map_cons, List.nodup_cons] at hnd
    rcases List.mem_cons.1 hm with h | h
    · obtain ⟨rfl, rfl⟩ := Prod.mk.injEq k v k' v' ▸ h
      simp [alookup]
    · have hkne : (k' == k) = false := by
        rw [beq_eq_false_iff_ne]
        intro hk
        subst hk
        exact hnd.1 (List.mem_map_of_mem Prod.fst h)
      show (if k' == k then some v' else alookup rest k) = some v
      rw [hkne]
      · simp only [Bool.false_eq_true, if_false]
        exact ih hnd.2 h

theorem addArea_nonneg (k0 : String) (a : ℚ) (ha : 0 ≤ a) :
    ∀ l : List (String × ℚ), (∀ p ∈ l, 0 ≤ p.2) →
      ∀ p ∈ addArea l k0 a, 0 ≤ p.2 := by
  intro l
  induction l with
  | nil =>
    intro _ p hp
    simp [addArea] at hp
    rw [hp]
    exact ha
  | cons x rest ih =>
    obtain ⟨k', v⟩ := x
    intro hl p hp
    have hv : 0 ≤ v := hl (k', v) (List.mem_cons_self _ _)
    have hrest : ∀ q ∈ rest, 0 ≤ q.2 := fun q hq => hl q (List.mem_cons_of_mem _ hq)
    by_cases hk : k' == k0
    · simp only [addArea, hk, if_true] at hp
      rcases List.mem_cons.1 hp with h | h
      · rw [h]; exact add_nonneg hv ha
      · exact hrest p h
    · simp only [addArea, hk, Bool.false_eq_true, if_false] at hp
      rcases List.mem_cons.1 hp with h | h
      · rw [h]; exact hv
      · exact ih hrest p h

theorem accumulateAreas_fold_nonneg (keys : List String) :
    ∀ anns : List Ann, (∀ ann ∈ anns, 0 ≤ annArea ann) →
      ∀ acc : List (String × ℚ), (∀ p ∈ acc, 0 ≤ p.2) →
      ∀ p ∈ (anns.foldl (fun acc ann =>
        if keys.contains (annLabel ann) then addArea acc (annLabel ann) (annArea ann)
        else acc) acc), 0 ≤ p.2 := by
  intro anns
  induction anns with
  | nil => exact fun _ acc hacc p hp => hacc p hp
  | cons a rest ih =>
    intro hanns acc hacc p hp
    rw [List.foldl_cons] at hp
    refine ih (fun ann h => hanns ann (List.mem_cons_of_mem a h)) _ ?_ p hp
    by_cases hc : keys.contains (annLabel a)
    · rw [if_pos hc]
      exact addArea_nonneg _ _ (hanns a (List.mem_cons_self a rest)) acc hacc
    · rw [if_neg hc]; exact hacc

theorem removeKey_subset (l : List (String × ℚ)) (nm : String) :
    ∀ p ∈ removeKey l nm, p ∈ l := fun p hp => (List.mem_filter.1 hp).1

theorem majorityAreas_subset_areas0 (im : List (String × ℤ)) (rn : Option String)
    (anns : List Ann) : ∀ p ∈ majorityAreas im rn anns, p ∈ majorityAreas0 im rn anns := by
  intro p hp
  rw [majorityAreas] at hp
  by_cases ht : roiTruthy rn
  · rw [if_pos ht] at hp
    exact removeKey_subset _ _ p hp
  · rw [if_neg ht] at hp
    exact hp

theorem processAnn_roiMask01 (size : ℕ × ℕ) (im : List (String × ℤ))
    (rn : Option String) (st : RasterState) (ann : Ann) (r c : ℕ)
    (h : st.roiMask r c = 0 ∨ st.roiMask r c = 1) :
    (processAnn size im rn st ann).roiMask r c = 0 ∨
      (processAnn size im rn st ann).roiMask r c = 1 := by
  cases ann with
  | point p => exact h
  | polygon p =>
    by_cases hroi : isRoiLabel rn p.label
    · simp only [processAnn, hroi, if_true]
      by_cases hin : (r < size.1 ∧ c < size.2 ∧
          insideRings [roundRing p.exterior] (c : ℤ) (r : ℤ) = true)
      · right; exact fillPoly_pos _ _ _ _ _ _ hin
      · rw [fillPoly_neg _ _ _ _ _ _ hin]; exact h
    · simp only [processAnn, hroi, Bool.false_eq_true, if_false]
      cases halp : alookup im p.label with
      | none => simp only [halp]; exact h
      | some v => simp only [halp]; exact h

theorem foldl_roiMask01 (size : ℕ × ℕ) (im : List (String × ℤ)) (rn : Option String) :
    ∀ (anns : List Ann) (st : RasterState) (r c : ℕ),
      (st.roiMask r c = 0 ∨ st.roiMask r c = 1) →
      ((anns.foldl (processAnn size im rn) st).roiMask r c = 0 ∨
        (anns.foldl (processAnn size im rn) st).roiMask r c = 1) := by
  intro anns
  induction anns with
  | nil => exact fun st r c h => h
  | cons a rest ih =>
    intro st r c h
    rw [List.foldl_cons]
    exact ih _ r c (processAnn_roiMask01 _ _ _ _ _ _ _ h)

theorem rasterState_roiMask01 (anns : List Ann) (size : ℕ × ℕ)
    (im : List (String × ℤ)) (rn : Option String) (d : ℤ) (r c : ℕ) :
    (rasterState anns size im rn d).roiMask r c = 0 ∨
      (rasterState anns size im rn d).roiMask r c = 1 :=
  foldl_roiMask01 size im rn anns _ r c (Or.inl rfl)

/-- C6: with a non-zero-area reference region, the threshold-presence
detector records `has <label>` as `True` exactly when the area of the
intersection of the target-label geometry with the reference region,
divided by the area of the reference region, is strictly greater than
the threshold; a proportion exactly equal to the threshold yields
`False`. -/
theorem presence_strict_threshold (interArea : List PolyAnn → RefRegion → ℚ)
    (rn : Option String) (label : String) (threshold : ℚ)
    (sample : Sample) (anns : List Ann)
    (hann : sample.annotations = some anns)
    (href : refRegionArea (refRegionOf rn anns sample.image.height sample.image.width) ≠ 0) :
    ∃ b : Bool,
      containsPolygonToLabel interArea rn label threshold sample =
        .ok { sample with
          labels := some (dictUpdate (sample.labels.getD []) ("has " ++ label) (.bool b)) } ∧
      (b = true ↔
        interArea (polygonsLabeled anns label)
            (refRegionOf rn anns sample.image.height sample.image.width) /
          refRegionArea (refRegionOf rn anns sample.image.height sample.image.width) >
          threshold) ∧
      ((interArea (polygonsLabeled anns label)
            (refRegionOf rn anns sample.image.height sample.image.width) /
          refRegionArea (refRegionOf rn anns sample.image.height sample.image.width) =
          threshold) → b = false) := by
  refine ⟨decide (interArea (polygonsLabeled anns label)
      (refRegionOf rn anns sample.image.height sample.image.width) /
    refRegionArea (refRegionOf rn anns sample.image.height sample.image.width) >
    threshold), ?_, by simp, ?_⟩
  · simp [containsPolygonToLabel, hann, href]
  · intro heq
    simp [heq]

theorem presence_strict_threshold_witness :
    ∃ b : Bool,
      containsPolygonToLabel (fun _ _ => (50 : ℚ)) (some "roi") "tumor" (2/5)
          thresholdSample =
        .ok { thresholdSample with
          labels := some (dictUpdate (thresholdSample.labels.getD [])
            ("has " ++ "tumor") (.bool b)) } ∧
      b = true := by
  obtain ⟨b, h1, h2, h3⟩ := presence_strict_threshold (fun _ _ => (50 : ℚ))
    (some "roi") "tumor" (2/5) thresholdSample
    (thresholdSample.annotations.getD []) rfl
    (by simp [refRegionOf, roiTruthy, refRegionArea, thresholdSample, polygonsLabeled,
      polygonArea, shoelaceTwice, squareRing])
  refine ⟨b, h1, h2.2 ?_⟩
  rw [show refRegionArea (refRegionOf (some "roi")
      (thresholdSample.annotations.getD []) thresholdSample.image.height
      thresholdSample.image.width) = 100 by
    simp [refRegionOf, roiTruthy, refRegionArea, thresholdSample, polygonsLabeled,
      polygonArea, shoelaceTwice, squareRing]
    norm_num]
  norm_num

/-- C7: in the majority-label selector, whenever the computed
`roi_non_cover = (tile_area - roi_area)/tile_area` strictly exceeds the
leading label's area fraction, the sample's image is replaced by the
image multiplied elementwise by the ROI-only mask rasterized with an
empty index map (and the image is untouched otherwise); in every case
the recorded `majority_class` label is `index_map[max_key]` for the key
`max_key` whose accumulated area is greatest. -/
theorem majority_roi_mask_and_label (sample : Sample) (anns : List Ann)
    (rn : Option String) (im : List (String × ℤ)) (mk : String) (mv : ℚ)
    (hann : sample.annotations = some anns)
    (harea : ∀ ann ∈ anns, 0 ≤ annArea ann)
    (hmax : maxEntry (majorityAreas im rn anns) = some (mk, mv))
    (hpix : ∀ r c ch, 0 ≤ sample.image.pix r c ch ∧ sample.image.pix r c ch < 256) :
    ∃ out, majorityClassToLabel rn im sample = .ok out ∧
      alookup (out.labels.getD []) "majority_class" =
        some (.int ((alookup im mk).getD 0)) ∧
      (∀ p ∈ majorityAreas im rn anns, p.2 ≤ mv) ∧
      (roiNonCoverOf im rn anns (tileAreaOf sample.image) >
          ((alookup (majorityAreas im rn anns) mk).getD 0) / tileAreaOf sample.image →
        ∃ roi, (convert_annotations anns (sample.image.height, sample.image.width) [] rn 0).roiMask
            = some roi ∧
          ∀ r c ch, out.image.pix r c ch = sample.image.pix r c ch * roi r c) ∧
      (¬(roiNonCoverOf im rn anns (tileAreaOf sample.image) >
          ((alookup (majorityAreas im rn anns) mk).getD 0) / tileAreaOf sample.image) →
        out.image = sample.image) := by
  obtain ⟨hmem, hall⟩ := maxEntry_spec _ _ hmax
  have hnd := majorityAreas_keys_nodup im rn anns
  have hlook : alookup (majorityAreas im rn anns) mk = some mv :=
    alookup_of_mem_nodup _ _ _ hnd hmem
  have hmv : 0 ≤ mv :=
    accumulateAreas_fold_nonneg (majorityKeys im rn) anns harea [] (by simp)
      (mk, mv) (majorityAreas_subset_areas0 im rn anns _ hmem)
  have htA0 : (0 : ℚ) ≤ tileAreaOf sample.image :=
    mul_nonneg (Nat.cast_nonneg _) (Nat.cast_nonneg _)
  have hmp0 : (0 : ℚ) ≤
      ((alookup (majorityAreas im rn anns) mk).getD 0) / tileAreaOf sample.image := by
    rw [hlook]
    exact div_nonneg hmv htA0
  by_cases hcond : roiNonCoverOf im rn anns (tileAreaOf sample.image) >
      ((alookup (majorityAreas im rn anns) mk).getD 0) / tileAreaOf sample.image
  · have htruthy : roiTruthy rn = true := by
      by_contra ht
      have hcond' := hcond
      simp only [roiNonCoverOf, if_neg ht] at hcond'
      exact absurd hcond' (not_lt.2 hmp0)
    have hsome : (convert_annotations anns (sample.image.height, sample.image.width) [] rn 0).roiMask
        = some (rasterState anns (sample.image.height, sample.image.width) [] rn 0).roiMask := by
      rw [convert_annotations_roiMask, if_pos htruthy]
    refine ⟨{ sample with
        image := maskImage sample.image
          (rasterState anns (sample.image.height, sample.image.width) [] rn 0).roiMask,
        labels := some (dictUpdate (sample.labels.getD []) "majority_class"
          (.int ((alookup im mk).getD 0))) }, ?_, ?_, ?_, ?_, ?_⟩
    · simp only [majorityClassToLabel, hann, hmax, hsome]
      rw [if_pos hcond]
    · simp [alookup_dictUpdate]
    · exact hall
    · intro _
      refine ⟨_, hsome, ?_⟩
      intro r c ch
      show (sample.image.pix r c ch *
        (rasterState anns (sample.image.height, sample.image.width) [] rn 0).roiMask r c) % 256 =
        sample.image.pix r c ch *
        (rasterState anns (sample.image.height, sample.image.width) [] rn 0).roiMask r c
      rcases rasterState_roiMask01 anns (sample.image.height, sample.image.width) [] rn 0 r c
        with h0 | h1
      · rw [h0, mul_zero]
        rfl
      · rw [h1, mul_one]
        exact Int.emod_eq_of_lt (hpix r c ch).1 (hpix r c ch).2
    · intro hnc
      exact absurd hcond hnc
  · refine ⟨{ sample with
        labels := some (dictUpdate (sample.labels.getD []) "majority_class"
          (.int ((alookup im mk).getD 0))) }, ?_, ?_, ?_, ?_, ?_⟩
    · simp only [majorityClassToLabel, hann, hmax]
      rw [if_neg hcond]
    · simp [alookup_dictUpdate]
    · exact hall
    · intro hc
      exact absurd hc hcond
    · intro _
      rfl

theorem majority_roi_mask_and_label_witness :
    ∃ out, majorityClassToLabel (some "roi") [("tumor", 5)] majoritySample = .ok out ∧
      alookup (out.labels.getD []) "majority_class" = some (.int 5) := by
  obtain ⟨out, h1, h2, _⟩ := majority_roi_mask_and_label majoritySample
    (majoritySample.annotations.getD []) (some "roi") [("tumor", 5)] "tumor" 3
    rfl (by decide) (by decide)
    (fun r c ch => ⟨(by decide : (0 : ℤ) ≤ 7), (by decide : (7 : ℤ) < 256)⟩)
  refine ⟨out, h1, ?_⟩
  rw [show ((alookup [("tumor", (5 : ℤ))] "tumor").getD 0) = 5 by decide] at h2
  exact h2
